import Mathlib

/-!
Verification of the zmk-studio-api repository core against its specification.

The definitions below are a shallow embedding of the Rust sources:
bytes are modelled as `Nat`, `Vec<u8>` as `List Nat`, fallible code as
`Except`/`Option`, and the stateful `FrameDecoder`/`StudioClient` loops as
explicit state-passing recursive functions.
-/

/-- Reserved start-of-frame marker byte (0xAB), `FRAMING_SOF` in `src/framing.rs`. -/
def FRAMING_SOF : Nat := 0xAB

/-- Reserved escape marker byte (0xAC), `FRAMING_ESC` in `src/framing.rs`. -/
def FRAMING_ESC : Nat := 0xAC

/-- Reserved end-of-frame marker byte (0xAD), `FRAMING_EOF` in `src/framing.rs`. -/
def FRAMING_EOF : Nat := 0xAD

/-- Decoder state machine states, `DecodeState` in `src/framing.rs`. -/
inductive DecodeState where
  | Idle
  | AwaitingData
  | Escaped
deriving DecidableEq

/-- Framing errors, `FramingError` in `src/framing.rs`. -/
inductive FramingError where
  | ExpectedStartOfFrame
  | UnexpectedStartOfFrameMidFrame
deriving DecidableEq

/-- The per-byte escaping of `encode_frame`'s loop body: a payload byte equal to
one of the three reserved marker bytes is preceded by `FRAMING_ESC`. -/
def escapeByte (b : Nat) : List Nat :=
  if b = FRAMING_SOF ∨ b = FRAMING_ESC ∨ b = FRAMING_EOF then [FRAMING_ESC, b] else [b]

/-- `encode_frame` from `src/framing.rs`: start marker, escaped payload, end marker. -/
def encode_frame (payload : List Nat) : List Nat :=
  FRAMING_SOF :: ((payload.map escapeByte).flatten ++ [FRAMING_EOF])

deriving instance DecidableEq for Except

/-- The decoder, `FrameDecoder` in `src/framing.rs`: current state plus the
partially accumulated payload of the in-progress frame. -/
structure FrameDecoder where
  state : DecodeState
  data : List Nat
deriving DecidableEq

/-- `FrameDecoder::new`. -/
def FrameDecoder.new : FrameDecoder := ⟨.Idle, []⟩

/-- The byte loop of `FrameDecoder::push` in `src/framing.rs`, with the `frames`
output vector as an accumulator.  On a framing error the Rust code clears
`self.data`, resets the state to `Idle` and returns `Err` immediately (the bytes
after the offending byte are not consumed and the accumulated `frames` vector is
dropped); the returned pair is the decoder as left behind plus the result. -/
def pushLoop : FrameDecoder → List Nat → List (List Nat) →
    FrameDecoder × Except FramingError (List (List Nat))
  | d, [], frames => (d, .ok frames)
  | d, b :: rest, frames =>
    match d.state with
    | .Idle =>
      if b = FRAMING_SOF then
        pushLoop ⟨.AwaitingData, d.data⟩ rest frames
      else
        (⟨.Idle, []⟩, .error .ExpectedStartOfFrame)
    | .AwaitingData =>
      if b = FRAMING_SOF then
        (⟨.Idle, []⟩, .error .UnexpectedStartOfFrameMidFrame)
      else if b = FRAMING_ESC then
        pushLoop ⟨.Escaped, d.data⟩ rest frames
      else if b = FRAMING_EOF then
        pushLoop ⟨.Idle, []⟩ rest (frames ++ [d.data])
      else
        pushLoop ⟨.AwaitingData, d.data ++ [b]⟩ rest frames
    | .Escaped =>
        pushLoop ⟨.AwaitingData, d.data ++ [b]⟩ rest frames

/-- `FrameDecoder::push`: run the byte loop starting from an empty `frames` vector. -/
def FrameDecoder.push (d : FrameDecoder) (chunk : List Nat) :
    FrameDecoder × Except FramingError (List (List Nat)) :=
  pushLoop d chunk []

example : FrameDecoder.new.push [171, 1, 2, 3, 173, 171, 4, 173] =
    (FrameDecoder.new, .ok [[1, 2, 3], [4]]) := by decide

example : encode_frame [1, 171, 172, 2, 3, 171, 4, 173, 5] =
    [171, 1, 172, 171, 172, 172, 2, 3, 172, 171, 4, 172, 173, 5, 173] := by decide

example : (FrameDecoder.new.push [171, 1, 173, 0]).2 = .error .ExpectedStartOfFrame := by
  decide

theorem esc_ne_sof : FRAMING_ESC ≠ FRAMING_SOF := by decide

theorem eof_ne_sof : FRAMING_EOF ≠ FRAMING_SOF := by decide

theorem eof_ne_esc : FRAMING_EOF ≠ FRAMING_ESC := by decide

/-- The `frames` accumulator of `pushLoop` only prefixes the successful result;
the final decoder and any error are independent of it. -/
theorem pushLoop_acc (c : List Nat) : ∀ (d : FrameDecoder) (frames : List (List Nat)),
    pushLoop d c frames =
      ((pushLoop d c []).1, (pushLoop d c []).2.map (fun fs => frames ++ fs)) := by
  induction c with
  | nil =>
    intro d frames
    simp [pushLoop, Except.map]
  | cons b rest ih =>
    intro d frames
    obtain ⟨st, data⟩ := d
    cases st with
    | Idle =>
      by_cases h : b = FRAMING_SOF
      · simp only [pushLoop, if_pos h]
        exact ih _ _
      · simp [pushLoop, if_neg h, Except.map]
    | AwaitingData =>
      by_cases h1 : b = FRAMING_SOF
      · simp [pushLoop, if_pos h1, Except.map]
      · by_cases h2 : b = FRAMING_ESC
        · simp only [pushLoop, if_neg h1, if_pos h2]
          exact ih _ _
        · by_cases h3 : b = FRAMING_EOF
          · simp only [pushLoop, if_neg h1, if_neg h2, if_pos h3, List.nil_append]
            rw [ih ⟨.Idle, []⟩ (frames ++ [data]), ih ⟨.Idle, []⟩ [data]]
            rcases hres : (pushLoop ⟨.Idle, []⟩ rest []).2 with e | fs <;>
              simp [Except.map]
          · simp only [pushLoop, if_neg h1, if_neg h2, if_neg h3]
            exact ih _ _
    | Escaped =>
      simp only [pushLoop]
      exact ih _ _

/-- Processing a concatenation: `pushLoop` over `c1 ++ c2` runs `c1` first and,
when that run does not error, continues with `c2` from the resulting decoder. -/
theorem pushLoop_append (c1 : List Nat) : ∀ (c2 : List Nat) (d : FrameDecoder)
    (frames : List (List Nat)),
    pushLoop d (c1 ++ c2) frames =
      match pushLoop d c1 frames with
      | (d2, .ok fs) => pushLoop d2 c2 fs
      | (d2, .error _) => (d2, (pushLoop d c1 frames).2) := by
  induction c1 with
  | nil =>
    intro c2 d frames
    simp [pushLoop]
  | cons b rest ih =>
    intro c2 d frames
    obtain ⟨st, data⟩ := d
    cases st with
    | Idle =>
      by_cases h : b = FRAMING_SOF
      · simp only [List.cons_append, pushLoop, if_pos h]
        exact ih _ _ _
      · simp [pushLoop, if_neg h]
    | AwaitingData =>
      by_cases h1 : b = FRAMING_SOF
      · simp [pushLoop, if_pos h1]
      · by_cases h2 : b = FRAMING_ESC
        · simp only [List.cons_append, pushLoop, if_neg h1, if_pos h2]
          exact ih _ _ _
        · by_cases h3 : b = FRAMING_EOF
          · simp only [List.cons_append, pushLoop, if_neg h1, if_neg h2, if_pos h3]
            exact ih _ _ _
          · simp only [List.cons_append, pushLoop, if_neg h1, if_neg h2, if_neg h3]
            exact ih _ _ _
    | Escaped =>
      simp only [List.cons_append, pushLoop]
      exact ih _ _ _

/-- Feeding the escaped body of a payload to a decoder that is inside a frame
appends the payload verbatim to the partial buffer. -/
theorem pushLoop_escaped_body (p : List Nat) : ∀ (data rest : List Nat)
    (frames : List (List Nat)),
    pushLoop ⟨.AwaitingData, data⟩ ((p.map escapeByte).flatten ++ rest) frames =
      pushLoop ⟨.AwaitingData, data ++ p⟩ rest frames := by
  induction p with
  | nil =>
    intro data rest frames
    simp
  | cons b p ih =>
    intro data rest frames
    by_cases h : b = FRAMING_SOF ∨ b = FRAMING_ESC ∨ b = FRAMING_EOF
    · have hesc : escapeByte b = [FRAMING_ESC, b] := by simp [escapeByte, h]
      simp only [List.map_cons, List.flatten_cons, hesc, List.append_assoc,
        List.cons_append, List.nil_append]
      rw [show pushLoop ⟨.AwaitingData, data⟩
            (FRAMING_ESC :: b :: ((p.map escapeByte).flatten ++ rest)) frames =
          pushLoop ⟨.Escaped, data⟩ (b :: ((p.map escapeByte).flatten ++ rest)) frames by
        simp [pushLoop, if_neg esc_ne_sof]]
      rw [show pushLoop ⟨.Escaped, data⟩ (b :: ((p.map escapeByte).flatten ++ rest)) frames =
          pushLoop ⟨.AwaitingData, data ++ [b]⟩ ((p.map escapeByte).flatten ++ rest) frames by
        simp [pushLoop]]
      rw [ih]
      simp
    · push_neg at h
      obtain ⟨h1, h2, h3⟩ := h
      have hesc : escapeByte b = [b] := by simp [escapeByte, h1, h2, h3]
      simp only [List.map_cons, List.flatten_cons, hesc, List.append_assoc,
        List.cons_append, List.nil_append]
      rw [show pushLoop ⟨.AwaitingData, data⟩ (b :: ((p.map escapeByte).flatten ++ rest)) frames
          = pushLoop ⟨.AwaitingData, data ++ [b]⟩ ((p.map escapeByte).flatten ++ rest) frames by
        simp [pushLoop, if_neg h1, if_neg h2, if_neg h3]]
      rw [ih]
      simp

/-- Feeding one complete encoded frame to a fresh-state decoder emits exactly
that payload and leaves the decoder back in the fresh state. -/
theorem pushLoop_encode (p : List Nat) (rest : List Nat) (frames : List (List Nat)) :
    pushLoop FrameDecoder.new (encode_frame p ++ rest) frames =
      pushLoop FrameDecoder.new rest (frames ++ [p]) := by
  show pushLoop ⟨.Idle, []⟩ _ _ = _
  rw [show encode_frame p ++ rest =
      FRAMING_SOF :: ((p.map escapeByte).flatten ++ ([FRAMING_EOF] ++ rest)) by
    simp [encode_frame]]
  rw [show pushLoop ⟨.Idle, []⟩
        (FRAMING_SOF :: ((p.map escapeByte).flatten ++ ([FRAMING_EOF] ++ rest))) frames =
      pushLoop ⟨.AwaitingData, []⟩ ((p.map escapeByte).flatten ++ ([FRAMING_EOF] ++ rest))
        frames by simp [pushLoop]]
  rw [pushLoop_escaped_body]
  simp [pushLoop, if_neg eof_ne_sof, if_neg eof_ne_esc, FrameDecoder.new]

/-- C1: for every byte-sequence payload (markers included), feeding
`encode_frame payload` to a fresh `FrameDecoder` via `push` yields exactly one
decoded frame equal to the payload, with no error (and the decoder ends in the
fresh state). -/
theorem encode_push_roundtrip (payload : List Nat) :
    FrameDecoder.new.push (encode_frame payload) = (FrameDecoder.new, .ok [payload]) := by
  show pushLoop _ _ _ = _
  rw [show encode_frame payload = encode_frame payload ++ [] by simp]
  rw [pushLoop_encode]
  simp [pushLoop]

/-- The caller-side loop that pushes a list of chunks in order into the decoder,
concatenating the decoded frames of each call and stopping at the first error
(as the tests and `decode_responses` callers of `push` do). -/
def pushChunks : FrameDecoder → List (List Nat) →
    FrameDecoder × Except FramingError (List (List Nat))
  | d, [] => (d, .ok [])
  | d, c :: cs =>
    match d.push c with
    | (d2, .ok fs) =>
      match pushChunks d2 cs with
      | (d3, .ok rest) => (d3, .ok (fs ++ rest))
      | (d3, .error e) => (d3, .error e)
    | (d2, .error e) => (d2, .error e)

/-- Pushing a list of chunks one call at a time is the same as pushing their
concatenation in one call. -/
theorem pushChunks_eq_push_flatten (cs : List (List Nat)) : ∀ (d : FrameDecoder),
    pushChunks d cs = d.push cs.flatten := by
  induction cs with
  | nil =>
    intro d
    simp [pushChunks, FrameDecoder.push, pushLoop]
  | cons c cs ih =>
    intro d
    show _ = pushLoop d (c ++ cs.flatten) []
    rw [pushLoop_append]
    show (match pushLoop d c [] with
        | (d2, Except.ok fs) =>
          match pushChunks d2 cs with
          | (d3, Except.ok rest) => (d3, Except.ok (fs ++ rest))
          | (d3, Except.error e) => (d3, Except.error e)
        | (d2, Except.error e) => (d2, Except.error e)) = _
    rcases hc : pushLoop d c [] with ⟨d2, r⟩
    rcases r with e | fs
    · simp [hc]
    · simp only [hc]
      rw [ih d2]
      rw [pushLoop_acc cs.flatten d2 fs]
      show _ = ((pushLoop d2 cs.flatten []).1,
        Except.map (fun fs2 => fs ++ fs2) (pushLoop d2 cs.flatten []).2)
      rcases ht : pushLoop d2 cs.flatten [] with ⟨d3, r2⟩
      rcases r2 with e2 | fs2 <;>
        simp [FrameDecoder.push, ht, Except.map]

/-- Pushing the concatenated encodings of a list of payloads into a fresh
decoder decodes exactly those payloads, in order, with no error. -/
theorem push_encode_all (ps : List (List Nat)) : ∀ (frames : List (List Nat)),
    pushLoop FrameDecoder.new ((ps.map encode_frame).flatten) frames =
      (FrameDecoder.new, .ok (frames ++ ps)) := by
  induction ps with
  | nil =>
    intro frames
    simp [pushLoop]
  | cons p ps ih =>
    intro frames
    simp only [List.map_cons, List.flatten_cons]
    rw [pushLoop_encode, ih]
    simp

/-- C5: for every list of payloads and every partition of the concatenation of
their encoded frames into chunks, pushing the chunks in order into a fresh
`FrameDecoder` yields exactly those payloads in order, independent of the
chunking. -/
theorem pushChunks_chunking_invariant (ps chunks : List (List Nat))
    (h : chunks.flatten = (ps.map encode_frame).flatten) :
    pushChunks FrameDecoder.new chunks = (FrameDecoder.new, .ok ps) := by
  rw [pushChunks_eq_push_flatten, FrameDecoder.push, h, push_encode_all]
  simp

/-- Witness for C5 at a concrete input: two payloads (the second containing a
reserved marker byte), delivered byte by byte. -/
theorem pushChunks_chunking_invariant_witness :
    pushChunks FrameDecoder.new
        [[171], [1], [173], [171], [172], [171], [173]] =
      (FrameDecoder.new, .ok [[1], [171]]) := by
  exact pushChunks_chunking_invariant [[1], [171]]
    [[171], [1], [173], [171], [172], [171], [173]] (by decide)

/-- Counterexample to C4 as stated: the chunk `[171, 1, 173, 0]` contains the
complete frame `[1]` (its proper prefix `[171, 1, 173]` decodes to it), yet
`push` on the full chunk reports only the framing error raised at the byte `0`
and delivers no frames at all: complete frames already seen in the erroring
chunk are discarded, not delivered. -/
theorem push_error_discards_frames_counterexample :
    (FrameDecoder.new.push [171, 1, 173]).2 = .ok [[1]] ∧
      (FrameDecoder.new.push [171, 1, 173, 0]).2 = .error .ExpectedStartOfFrame := by
  decide

/-- C4 (amended): when a framing error occurs, `push` stops at the offending
byte, discards the in-progress frame and every complete frame decoded earlier in
that same call, and resets the decoder to the fresh state (`Idle`, empty
buffer), so the decoder stays usable: a well-formed encoded frame pushed
afterwards decodes normally. -/
theorem push_error_resets_decoder (d : FrameDecoder) (chunk : List Nat) (e : FramingError)
    (herr : (d.push chunk).2 = .error e) :
    (d.push chunk).1 = FrameDecoder.new ∧
      ∀ payload, (d.push chunk).1.push (encode_frame payload) =
        (FrameDecoder.new, .ok [payload]) := by
  have hreset : ∀ (c : List Nat) (d0 : FrameDecoder) (frames : List (List Nat)),
      (pushLoop d0 c frames).2 = .error e → (pushLoop d0 c frames).1 = FrameDecoder.new := by
    intro c
    induction c with
    | nil =>
      intro d0 frames h
      simp [pushLoop] at h
    | cons b rest ih =>
      intro d0 frames h
      obtain ⟨st, data⟩ := d0
      cases st with
      | Idle =>
        by_cases hb : b = FRAMING_SOF
        · rw [show pushLoop ⟨.Idle, data⟩ (b :: rest) frames =
              pushLoop ⟨.AwaitingData, data⟩ rest frames by simp [pushLoop, if_pos hb]] at h ⊢
          exact ih _ _ h
        · simp [pushLoop, if_neg hb, FrameDecoder.new]
      | AwaitingData =>
        by_cases h1 : b = FRAMING_SOF
        · simp [pushLoop, if_pos h1, FrameDecoder.new]
        · by_cases h2 : b = FRAMING_ESC
          · rw [show pushLoop ⟨.AwaitingData, data⟩ (b :: rest) frames =
                pushLoop ⟨.Escaped, data⟩ rest frames by
              simp [pushLoop, if_neg h1, if_pos h2]] at h ⊢
            exact ih _ _ h
          · by_cases h3 : b = FRAMING_EOF
            · rw [show pushLoop ⟨.AwaitingData, data⟩ (b :: rest) frames =
                  pushLoop ⟨.Idle, []⟩ rest (frames ++ [data]) by
                simp [pushLoop, if_neg h1, if_neg h2, if_pos h3]] at h ⊢
              exact ih _ _ h
            · rw [show pushLoop ⟨.AwaitingData, data⟩ (b :: rest) frames =
                  pushLoop ⟨.AwaitingData, data ++ [b]⟩ rest frames by
                simp [pushLoop, if_neg h1, if_neg h2, if_neg h3]] at h ⊢
              exact ih _ _ h
      | Escaped =>
        rw [show pushLoop ⟨.Escaped, data⟩ (b :: rest) frames =
            pushLoop ⟨.AwaitingData, data ++ [b]⟩ rest frames by simp [pushLoop]] at h ⊢
        exact ih _ _ h
  have h1 : (d.push chunk).1 = FrameDecoder.new := hreset chunk d [] herr
  refine ⟨h1, fun payload => ?_⟩
  rw [h1]
  show pushLoop _ _ _ = _
  rw [show encode_frame payload = encode_frame payload ++ [] by simp, pushLoop_encode]
  simp [pushLoop]

/-- Witness for C4 (amended) at a concrete input: the erroring push of
`[171, 171]` (start marker repeated mid-frame) leaves the decoder in the fresh
state and a subsequent well-formed frame decodes. -/
theorem push_error_resets_decoder_witness :
    (FrameDecoder.new.push [171, 171]).1 = FrameDecoder.new ∧
      (FrameDecoder.new.push [171, 171]).1.push (encode_frame [7]) =
        (FrameDecoder.new, .ok [[7]]) := by
  have h := push_error_resets_decoder FrameDecoder.new [171, 171]
    .UnexpectedStartOfFrameMidFrame (by decide)
  exact ⟨h.1, h.2 [7]⟩

/-- C10: after any sequence of `push` calls starting from `FrameDecoder::new`
(including calls that errored), whenever the decoder is in the `Idle` state its
partial-data buffer is empty, so bytes of a completed or discarded frame cannot
leak into a later frame. -/
theorem idle_buffer_empty (chunks : List (List Nat))
    (hidle : (chunks.foldl (fun d c => (d.push c).1) FrameDecoder.new).state = .Idle) :
    (chunks.foldl (fun d c => (d.push c).1) FrameDecoder.new).data = [] := by
  have step : ∀ (c : List Nat) (d : FrameDecoder) (frames : List (List Nat)),
      (d.state = .Idle → d.data = []) →
      ((pushLoop d c frames).1.state = .Idle → (pushLoop d c frames).1.data = []) := by
    intro c
    induction c with
    | nil =>
      intro d frames hd
      simpa [pushLoop] using hd
    | cons b rest ih =>
      intro d frames hd
      obtain ⟨st, data⟩ := d
      cases st with
      | Idle =>
        by_cases hb : b = FRAMING_SOF
        · rw [show pushLoop ⟨.Idle, data⟩ (b :: rest) frames =
              pushLoop ⟨.AwaitingData, data⟩ rest frames by simp [pushLoop, if_pos hb]]
          exact ih _ _ (by intro hcontr; cases hcontr)
        · simp [pushLoop, if_neg hb]
      | AwaitingData =>
        by_cases h1 : b = FRAMING_SOF
        · simp [pushLoop, if_pos h1]
        · by_cases h2 : b = FRAMING_ESC
          · rw [show pushLoop ⟨.AwaitingData, data⟩ (b :: rest) frames =
                pushLoop ⟨.Escaped, data⟩ rest frames by
              simp [pushLoop, if_neg h1, if_pos h2]]
            exact ih _ _ (by intro hcontr; cases hcontr)
          · by_cases h3 : b = FRAMING_EOF
            · rw [show pushLoop ⟨.AwaitingData, data⟩ (b :: rest) frames =
                  pushLoop ⟨.Idle, []⟩ rest (frames ++ [data]) by
                simp [pushLoop, if_neg h1, if_neg h2, if_pos h3]]
              exact ih _ _ (by intro _; rfl)
            · rw [show pushLoop ⟨.AwaitingData, data⟩ (b :: rest) frames =
                  pushLoop ⟨.AwaitingData, data ++ [b]⟩ rest frames by
                simp [pushLoop, if_neg h1, if_neg h2, if_neg h3]]
              exact ih _ _ (by intro hcontr; cases hcontr)
      | Escaped =>
        rw [show pushLoop ⟨.Escaped, data⟩ (b :: rest) frames =
            pushLoop ⟨.AwaitingData, data ++ [b]⟩ rest frames by simp [pushLoop]]
        exact ih _ _ (by intro hcontr; cases hcontr)
  have inv : ∀ (cs : List (List Nat)) (d : FrameDecoder),
      (d.state = .Idle → d.data = []) →
      ((cs.foldl (fun d c => (d.push c).1) d).state = .Idle →
        (cs.foldl (fun d c => (d.push c).1) d).data = []) := by
    intro cs
    induction cs with
    | nil => intro d hd; simpa using hd
    | cons c cs ih =>
      intro d hd
      simp only [List.foldl_cons]
      exact ih _ (step c d [] hd)
  exact inv chunks FrameDecoder.new (fun _ => rfl) hidle

/-- Witness for C10 at a concrete input: after pushing one complete frame and
one erroring chunk, the decoder is `Idle` with an empty buffer. -/
theorem idle_buffer_empty_witness :
    ([[171, 1, 173], [0]].foldl (fun d c => (d.push c).1) FrameDecoder.new).data = [] := by
  exact idle_buffer_empty [[171, 1, 173], [0]] (by decide)

/-- The meta subsystem response payload, `zmk::meta::Response::response_type`
(`NoResponse(bool)` or `SimpleError(raw enum value)`). -/
inductive MetaResponseType where
  | noResponse (flag : Bool)
  | simpleError (raw : Int)
deriving DecidableEq

/-- `zmk::meta::Response`. -/
structure MetaResponse where
  response_type : Option MetaResponseType
deriving DecidableEq

/-- The subsystem payload of a `RequestResponse`
(`studio::request_response::Subsystem`).  The core/behaviors/keymap payloads are
opaque to the `call` loop and modelled as bare numbers. -/
inductive RRSubsystem where
  | core (payload : Nat)
  | behaviors (payload : Nat)
  | keymap (payload : Nat)
  | meta (m : MetaResponse)
deriving DecidableEq

/-- `studio::RequestResponse`: a request id plus an optional subsystem result. -/
structure RequestResponse where
  request_id : Nat
  subsystem : Option RRSubsystem
deriving DecidableEq

/-- `studio::response::Type`: either an unsolicited notification (payload
opaque, modelled as a number) or a correlated request response. -/
inductive ResponseType where
  | notification (n : Nat)
  | requestResponse (rr : RequestResponse)
deriving DecidableEq

/-- `studio::Response` with its optional `r#type` field. -/
structure Response where
  rtype : Option ResponseType
deriving DecidableEq

/-- The errors of `ClientError` in `src/client.rs` reachable in the modelled
code paths (the I/O error carries no payload here; `UnknownEnumValue` keeps only
the offending value). -/
inductive ClientError where
  | IoError
  | Meta (cond : Nat)
  | NoResponse
  | MissingResponseType
  | UnexpectedRequestId (expected actual : Nat)
  | UnknownEnumValue (value : Int)
  | InvalidLayerOrPosition (layer_id : Nat) (key_position : Int)
deriving DecidableEq

/-- The response-processing loop of `StudioClient::call` (client.rs:835-873).
The list argument models the successive results of `read_next_response` (an
exhausted list standing for the transport EOF error); the second argument is the
`notifications` queue.  `ecTryFrom` abstracts
`zmk::meta::ErrorConditions::try_from`, which lives in generated protobuf code
outside `src/`.  Returns the final notification queue and the loop's result. -/
def callLoop (ecTryFrom : Int → Option Nat) (request_id : Nat) :
    List Response → List Nat → List Nat × Except ClientError RequestResponse
  | [], notifq => (notifq, .error .IoError)
  | r :: rest, notifq =>
    match r.rtype with
    | some (.notification n) => callLoop ecTryFrom request_id rest (notifq ++ [n])
    | some (.requestResponse rr) =>
      if rr.request_id ≠ request_id then
        (notifq, .error (.UnexpectedRequestId request_id rr.request_id))
      else
        match rr.subsystem with
        | some (.meta m) =>
          match m.response_type with
          | some (.noResponse true) => (notifq, .error .NoResponse)
          | some (.simpleError raw) =>
            match ecTryFrom raw with
            | some cond => (notifq, .error (.Meta cond))
            | none => (notifq, .error (.UnknownEnumValue raw))
          | _ => (notifq, .error .MissingResponseType)
        | _ => (notifq, .ok rr)
    | none => (notifq, .error .MissingResponseType)

/-- `StudioClient::next_notification`: pop the front of the notification
queue. -/
def next_notification (q : List Nat) : Option Nat × List Nat :=
  (q.head?, q.tail)

/-- Repeatedly calling `next_notification` until the queue is empty returns the
queued notifications in order. -/
def drainNotifications : List Nat → List Nat
  | [] => []
  | n :: q =>
    match (next_notification (n :: q)).1 with
    | some m => m :: drainNotifications (next_notification (n :: q)).2
    | none => []

/-- Wraps a notification payload as an incoming `Response`. -/
def notifResponse (n : Nat) : Response := ⟨some (.notification n)⟩

/-- Wraps a `RequestResponse` as an incoming `Response`. -/
def rrResponse (rr : RequestResponse) : Response := ⟨some (.requestResponse rr)⟩

/-- Whether an optional subsystem result is the meta subsystem. -/
def isMetaSubsystem : Option RRSubsystem → Bool
  | some (.meta _) => true
  | _ => false

/-- Popping the notification queue repeatedly returns exactly the queued
notifications in their queue order. -/
theorem drainNotifications_eq (q : List Nat) : drainNotifications q = q := by
  induction q with
  | nil => rfl
  | cons n q ih => simp [drainNotifications, next_notification, ih]

/-- C2 (amended): a `call` that receives zero or more notifications followed by
the `RequestResponse` bearing its own request id returns that response —
provided the response does not carry a meta-subsystem result, which `call`
translates into an error instead — and every notification seen en route is
appended to the notification queue in arrival order, where `next_notification`
subsequently yields them in that order. -/
theorem call_correlation (ec : Int → Option Nat) (rid : Nat) (notifs : List Nat)
    (rr : RequestResponse) (rest : List Response) (q0 : List Nat)
    (hid : rr.request_id = rid) (hmeta : isMetaSubsystem rr.subsystem = false) :
    callLoop ec rid (notifs.map notifResponse ++ rrResponse rr :: rest) q0 =
      (q0 ++ notifs, .ok rr) ∧
    drainNotifications (q0 ++ notifs) = q0 ++ notifs := by
  have hmain : ∀ (ns : List Nat) (q : List Nat),
      callLoop ec rid (ns.map notifResponse ++ rrResponse rr :: rest) q = (q ++ ns, .ok rr) := by
    intro ns
    induction ns with
    | nil =>
      intro q
      simp only [List.map_nil, List.nil_append, List.append_nil]
      rcases hsub : rr.subsystem with _ | sub
      · simp [callLoop, rrResponse, hid, hsub]
      · cases sub with
        | meta m => rw [hsub] at hmeta; simp [isMetaSubsystem] at hmeta
        | core p => simp [callLoop, rrResponse, hid, hsub]
        | behaviors p => simp [callLoop, rrResponse, hid, hsub]
        | keymap p => simp [callLoop, rrResponse, hid, hsub]
    | cons n ns ih =>
      intro q
      simp only [List.map_cons, List.cons_append]
      rw [show callLoop ec rid
            (notifResponse n :: (ns.map notifResponse ++ rrResponse rr :: rest)) q =
          callLoop ec rid (ns.map notifResponse ++ rrResponse rr :: rest) (q ++ [n]) from rfl]
      rw [ih (q ++ [n])]
      simp
  exact ⟨hmain notifs q0, drainNotifications_eq _⟩

/-- Witness for C2 (amended) at a concrete input: request id 5, one interleaved
notification, then the matching non-meta response. -/
theorem call_correlation_witness :
    callLoop (fun _ => none) 5 [notifResponse 9, rrResponse ⟨5, some (.core 0)⟩] [] =
      ([9], .ok ⟨5, some (.core 0)⟩) := by
  have h := call_correlation (fun _ => none) 5 [9] ⟨5, some (.core 0)⟩ [] [] rfl rfl
  simpa using h.1

/-- Counterexample to C2 as stated: a `RequestResponse` whose id matches the
sent id but which carries the meta-subsystem `NoResponse` result is not returned
by `call`; `call` turns it into the `NoResponse` error. -/
theorem call_meta_counterexample :
    (callLoop (fun _ => none) 5
        [rrResponse ⟨5, some (.meta ⟨some (.noResponse true)⟩)⟩] []).2 =
      .error .NoResponse := by
  decide

/-- C9: if the first `RequestResponse` read by a `call` (after zero or more
notifications, which are still enqueued) carries a request id different from the
one sent, `call` fails with `UnexpectedRequestId` carrying expected = sent id
and actual = received id, never returning the mismatched response as success. -/
theorem call_unexpected_request_id (ec : Int → Option Nat) (rid : Nat) (notifs : List Nat)
    (rr : RequestResponse) (rest : List Response) (q0 : List Nat)
    (hid : rr.request_id ≠ rid) :
    callLoop ec rid (notifs.map notifResponse ++ rrResponse rr :: rest) q0 =
      (q0 ++ notifs, .error (.UnexpectedRequestId rid rr.request_id)) := by
  induction notifs generalizing q0 with
  | nil =>
    simp only [List.map_nil, List.nil_append, List.append_nil]
    simp [callLoop, rrResponse, hid]
  | cons n ns ih =>
    simp only [List.map_cons, List.cons_append]
    rw [show callLoop ec rid
          (notifResponse n :: (ns.map notifResponse ++ rrResponse rr :: rest)) q0 =
        callLoop ec rid (ns.map notifResponse ++ rrResponse rr :: rest) (q0 ++ [n]) from rfl]
    rw [ih (q0 ++ [n])]
    simp

/-- Witness for C9 at the spec's concrete scenario: a call sent with id 5
receives a notification and then a response with id 6. -/
theorem call_unexpected_request_id_witness :
    callLoop (fun _ => none) 5 [notifResponse 3, rrResponse ⟨6, none⟩] [] =
      ([3], .error (.UnexpectedRequestId 5 6)) := by
  have h := call_unexpected_request_id (fun _ => none) 5 [3] ⟨6, none⟩ [] [] (by decide)
  simpa using h

/-- The client state relevant to `read_notification_blocking`: the notification
queue, the queue of already-decoded undelivered responses, and the remaining
stream of responses the transport will deliver (already decoded; an exhausted
stream stands for the transport EOF). -/
structure ClientState where
  notifications : List Nat
  responses : List Response
  incoming : List Response
deriving DecidableEq

/-- `StudioClient::read_next_response` (client.rs:875-896): pop the front of the
`responses` queue if non-empty, otherwise read from the transport (EOF when the
modelled stream is exhausted is the fatal I/O error). -/
def read_next_response (s : ClientState) : ClientState × Except ClientError Response :=
  match s.responses with
  | r :: rest => ({ s with responses := rest }, .ok r)
  | [] =>
    match s.incoming with
    | [] => (s, .error .IoError)
    | r :: rest => ({ s with incoming := rest }, .ok r)

/-- `StudioClient::read_notification_blocking` (client.rs:160-168): loop that
returns the front of the notification queue when non-empty and otherwise calls
`read_next_response`, DISCARDING its result (`let _ = ...`), propagating only
its error. -/
def read_notification_blocking : ClientState → ClientState × Except ClientError Nat
  | ⟨n :: q, resps, inc⟩ => (⟨q, resps, inc⟩, .ok n)
  | ⟨[], _r :: resps, inc⟩ => read_notification_blocking ⟨[], resps, inc⟩
  | ⟨[], [], _r :: inc⟩ => read_notification_blocking ⟨[], [], inc⟩
  | ⟨[], [], []⟩ => (⟨[], [], []⟩, .error .IoError)

/-- C3 (code evaluation): the notification-queue drain works, but when the
queue starts empty `read_notification_blocking` discards every response it
reads — notifications arriving on the wire are never returned and
`RequestResponse`s are never preserved — and the loop only ends in the
transport EOF error (on a live blocking transport it would spin forever).  In
particular, with the queue empty and a single incoming `Notification 7`, the
code returns the I/O error instead of notification 7. -/
theorem read_notification_blocking_discards :
    (∀ (resps inc : List Response),
        read_notification_blocking ⟨[], resps, inc⟩ = (⟨[], [], []⟩, .error .IoError)) ∧
      (∀ (n : Nat) (q : List Nat) (resps inc : List Response),
        read_notification_blocking ⟨n :: q, resps, inc⟩ = (⟨q, resps, inc⟩, .ok n)) ∧
      read_notification_blocking ⟨[], [], [notifResponse 7]⟩ =
        (⟨[], [], []⟩, .error .IoError) := by
  have hmain : ∀ (resps inc : List Response),
      read_notification_blocking ⟨[], resps, inc⟩ = (⟨[], [], []⟩, .error .IoError) := by
    intro resps
    induction resps with
    | nil =>
      intro inc
      induction inc with
      | nil => simp [read_notification_blocking]
      | cons r inc ih => rw [read_notification_blocking, ih]
    | cons r resps ih =>
      intro inc
      rw [read_notification_blocking, ih]
  exact ⟨hmain, fun n q resps inc => by rw [read_notification_blocking],
    hmain [] [notifResponse 7]⟩

/-- `BehaviorRole` from `src/binding.rs`: the closed set of known behavior
roles. -/
inductive BehaviorRole where
  | KeyPress
  | KeyToggle
  | LayerTap
  | ModTap
  | StickyKey
  | StickyLayer
  | MomentaryLayer
  | ToggleLayer
  | ToLayer
  | Bluetooth
  | ExternalPower
  | OutputSelection
  | Backlight
  | Underglow
  | MouseKeyPress
  | MouseMove
  | MouseScroll
  | CapsWord
  | KeyRepeat
  | Reset
  | Bootloader
  | SoftOff
  | StudioUnlock
  | GraveEscape
  | Transparent
  | None
deriving DecidableEq

/-- Strings are modelled as lists of Unicode code points. -/
def strCodes (s : String) : List Nat := s.toList.map Char.toNat

/-- The code points with the Unicode `White_Space` property, the set trimmed by
Rust's `str::trim`. -/
def rustWhitespaceCodes : List Nat :=
  [0x9, 0xA, 0xB, 0xC, 0xD, 0x20, 0x85, 0xA0, 0x1680,
   0x2000, 0x2001, 0x2002, 0x2003, 0x2004, 0x2005, 0x2006, 0x2007, 0x2008, 0x2009, 0x200A,
   0x2028, 0x2029, 0x202F, 0x205F, 0x3000]

/-- Whether a code point is whitespace in the sense of `str::trim`. -/
def isWhitespaceCode (c : Nat) : Bool := decide (c ∈ rustWhitespaceCodes)

/-- `char::to_ascii_lowercase`: shift only the ASCII uppercase letters. -/
def toAsciiLowercase (c : Nat) : Nat := if 65 ≤ c ∧ c ≤ 90 then c + 32 else c

/-- `str::trim`: drop leading and trailing whitespace code points. -/
def trimCodes (l : List Nat) : List Nat :=
  ((l.dropWhile isWhitespaceCode).reverse.dropWhile isWhitespaceCode).reverse

/-- The fixed match table of `role_from_display_name` in `src/binding.rs`,
keyed by the already-normalized display names. -/
def roleTable : List (List Nat × BehaviorRole) := [
  (strCodes "key press", .KeyPress),
  (strCodes "key toggle", .KeyToggle),
  (strCodes "layer-tap", .LayerTap),
  (strCodes "mod-tap", .ModTap),
  (strCodes "sticky key", .StickyKey),
  (strCodes "sticky layer", .StickyLayer),
  (strCodes "momentary layer", .MomentaryLayer),
  (strCodes "toggle layer", .ToggleLayer),
  (strCodes "to layer", .ToLayer),
  (strCodes "bluetooth", .Bluetooth),
  (strCodes "external power", .ExternalPower),
  (strCodes "output selection", .OutputSelection),
  (strCodes "backlight", .Backlight),
  (strCodes "underglow", .Underglow),
  (strCodes "mouse key press", .MouseKeyPress),
  (strCodes "mouse move", .MouseMove),
  (strCodes "mouse scroll", .MouseScroll),
  (strCodes "caps word", .CapsWord),
  (strCodes "key repeat", .KeyRepeat),
  (strCodes "reset", .Reset),
  (strCodes "bootloader", .Bootloader),
  (strCodes "soft off", .SoftOff),
  (strCodes "studio unlock", .StudioUnlock),
  (strCodes "grave escape", .GraveEscape),
  (strCodes "transparent", .Transparent),
  (strCodes "none", .None)]

/-- `role_from_display_name` from `src/binding.rs`: trim, ASCII-lowercase, then
exact match against the fixed table. -/
def role_from_display_name (name : List Nat) : Option BehaviorRole :=
  roleTable.lookup ((trimCodes name).map toAsciiLowercase)

example : role_from_display_name (strCodes " Key Press ") = some .KeyPress := by decide

example : role_from_display_name (strCodes "Layer-Tap") = some .LayerTap := by decide

/-- `HashMap::insert` for the `behavior_role_by_id` table, modelled as an
association list consulted front-first (so insertion shadows older entries,
matching `HashMap` lookup semantics). -/
def catalogInsert (m : List (Nat × BehaviorRole)) (id : Nat) (role : BehaviorRole) :
    List (Nat × BehaviorRole) :=
  (id, role) :: m

/-- `HashMap::entry(role).or_insert(id)` for the `behavior_id_by_role` table:
insert only when the role has no entry yet. -/
def orInsert (m : List (BehaviorRole × Nat)) (role : BehaviorRole) (id : Nat) :
    List (BehaviorRole × Nat) :=
  match m.lookup role with
  | some _ => m
  | none => (role, id) :: m

/-- The catalog-building loop of `StudioClient::ensure_behavior_catalog`
(client.rs:755-771), as a pure fold over the firmware-reported
(behavior id, display name) pairs; returns the
(`behavior_role_by_id`, `behavior_id_by_role`) tables. -/
def ensure_behavior_catalog (entries : List (Nat × List Nat)) :
    List (Nat × BehaviorRole) × List (BehaviorRole × Nat) :=
  entries.foldl (fun acc e =>
    match role_from_display_name e.2 with
    | some role => (catalogInsert acc.1 e.1 role, orInsert acc.2 role e.1)
    | none => acc) ([], [])

/-- The first id in the entry list whose display name maps to the given role. -/
def firstIdForRole (entries : List (Nat × List Nat)) (role : BehaviorRole) : Option Nat :=
  (entries.find? (fun e => role_from_display_name e.2 == some role)).map (fun e => e.1)

/-- Counterexample to C6 as stated: two display names differing only in internal
whitespace do NOT map to the same role — `role_from_display_name` does not
collapse internal whitespace or punctuation, it only trims the ends and
ASCII-lowercases.  "Key  Press" (double space) matches no role while
"Key Press" maps to `KeyPress`; likewise a punctuation variant of a known name
matches nothing. -/
theorem role_normalization_counterexample :
    role_from_display_name (strCodes "Key  Press") = none ∧
      role_from_display_name (strCodes "Key Press") = some .KeyPress ∧
      role_from_display_name (strCodes "Key-Press") = none := by
  decide

/-- A list of whitespace code points drops entirely. -/
theorem dropWhile_all_whitespace (l : List Nat) (h : ∀ c ∈ l, isWhitespaceCode c) :
    l.dropWhile isWhitespaceCode = [] := by
  induction l with
  | nil => rfl
  | cons c l ih =>
    rw [List.dropWhile_cons, if_pos (h c (by simp))]
    exact ih (fun x hx => h x (by simp [hx]))

/-- ASCII lowercasing does not change whether a code point is whitespace. -/
theorem whitespace_toAsciiLowercase (c : Nat) :
    isWhitespaceCode (toAsciiLowercase c) = isWhitespaceCode c := by
  by_cases h : 65 ≤ c ∧ c ≤ 90
  · have hc : toAsciiLowercase c = c + 32 := by unfold toAsciiLowercase; rw [if_pos h]
    have h1 : isWhitespaceCode (c + 32) = false := by
      simp [isWhitespaceCode, rustWhitespaceCodes]
      omega
    have h2 : isWhitespaceCode c = false := by
      simp [isWhitespaceCode, rustWhitespaceCodes]
      omega
    rw [hc, h1, h2]
  · have hc : toAsciiLowercase c = c := by unfold toAsciiLowercase; rw [if_neg h]
    rw [hc]

/-- ASCII lowercasing is idempotent. -/
theorem toAsciiLowercase_idem (c : Nat) :
    toAsciiLowercase (toAsciiLowercase c) = toAsciiLowercase c := by
  by_cases h : 65 ≤ c ∧ c ≤ 90
  · have hc : toAsciiLowercase c = c + 32 := by unfold toAsciiLowercase; rw [if_pos h]
    rw [hc]
    unfold toAsciiLowercase
    rw [if_neg (by omega)]
  · have hc : toAsciiLowercase c = c := by unfold toAsciiLowercase; rw [if_neg h]
    rw [hc, hc]

/-- `dropWhile` on whitespace commutes with ASCII lowercasing. -/
theorem dropWhile_map_lower (l : List Nat) :
    (l.map toAsciiLowercase).dropWhile isWhitespaceCode =
      (l.dropWhile isWhitespaceCode).map toAsciiLowercase := by
  induction l with
  | nil => simp
  | cons c l ih =>
    simp only [List.map_cons, List.dropWhile_cons, whitespace_toAsciiLowercase]
    by_cases h : isWhitespaceCode c
    · simp [h, ih]
    · simp [h]

/-- Trimming commutes with ASCII lowercasing. -/
theorem trim_map_lower (l : List Nat) :
    trimCodes (l.map toAsciiLowercase) = (trimCodes l).map toAsciiLowercase := by
  unfold trimCodes
  rw [dropWhile_map_lower, List.reverse_map, dropWhile_map_lower, List.reverse_map]

/-- Mapping ASCII lowercasing twice is the same as once. -/
theorem map_lower_idem (l : List Nat) :
    (l.map toAsciiLowercase).map toAsciiLowercase = l.map toAsciiLowercase := by
  induction l with
  | nil => rfl
  | cons c l ih => simp [toAsciiLowercase_idem, ih]

/-- Trimming removes any whitespace padding around a name. -/
theorem trim_pad (ws1 name ws2 : List Nat) (h1 : ∀ c ∈ ws1, isWhitespaceCode c)
    (h2 : ∀ c ∈ ws2, isWhitespaceCode c) :
    trimCodes (ws1 ++ name ++ ws2) = trimCodes name := by
  unfold trimCodes
  rw [List.append_assoc, List.dropWhile_append_of_pos h1, List.dropWhile_append]
  by_cases h : (name.dropWhile isWhitespaceCode).isEmpty
  · rw [if_pos h, dropWhile_all_whitespace ws2 h2]
    rw [List.isEmpty_eq_true] at h
    rw [h]
  · rw [if_neg h, List.reverse_append,
      List.dropWhile_append_of_pos (fun a ha => h2 a (List.mem_reverse.mp ha))]

/-- Generalized invariant of the catalog fold: an id already recorded for a role
is kept, otherwise the first matching entry wins. -/
theorem catalog_fold_lookup (entries : List (Nat × List Nat)) :
    ∀ (m1 : List (Nat × BehaviorRole)) (m2 : List (BehaviorRole × Nat)) (role : BehaviorRole),
    ((entries.foldl (fun acc e =>
        match role_from_display_name e.2 with
        | some r => (catalogInsert acc.1 e.1 r, orInsert acc.2 r e.1)
        | none => acc) (m1, m2)).2).lookup role =
      (match m2.lookup role with
       | some v => some v
       | none => firstIdForRole entries role) := by
  induction entries with
  | nil =>
    intro m1 m2 role
    simp only [List.foldl_nil]
    cases hm : m2.lookup role <;> simp [firstIdForRole]
  | cons e entries ih =>
    intro m1 m2 role
    obtain ⟨id, name⟩ := e
    simp only [List.foldl_cons]
    cases hrole : role_from_display_name name with
    | none =>
      simp only [hrole]
      rw [ih m1 m2 role]
      have hfirst : firstIdForRole ((id, name) :: entries) role = firstIdForRole entries role := by
        unfold firstIdForRole
        rw [List.find?_cons_of_neg]
        simp [hrole]
      rw [hfirst]
    | some r =>
      simp only [hrole]
      rw [ih (catalogInsert m1 id r) (orInsert m2 r id) role]
      rcases hm : m2.lookup role with _ | v
      · by_cases hr : role = r
        · subst hr
          have hoi : (orInsert m2 role id).lookup role = some id := by
            unfold orInsert
            rw [hm]
            simp [List.lookup]
          have hfirst : firstIdForRole ((id, name) :: entries) role = some id := by
            unfold firstIdForRole
            rw [List.find?_cons_of_pos]
            · simp
            · simp [hrole]
          rw [hoi, hfirst]
        · have hoi : (orInsert m2 r id).lookup role = none := by
            unfold orInsert
            cases hm2 : m2.lookup r with
            | some w => exact hm
            | none =>
              have hba : (role == r) = false := by
                simp only [beq_eq_false_iff_ne, ne_eq]
                exact hr
              simp [List.lookup, hba, hm]
          have hfirst : firstIdForRole ((id, name) :: entries) role =
              firstIdForRole entries role := by
            unfold firstIdForRole
            rw [List.find?_cons_of_neg]
            simp only [hrole, beq_eq_false_iff_ne, ne_eq, Option.some.injEq] at *
            simp
            exact fun hcontr => hr hcontr.symm
          rw [hoi, hfirst]
      · have hoi : (orInsert m2 r id).lookup role = some v := by
          unfold orInsert
          cases hm2 : m2.lookup r with
          | some w => exact hm
          | none =>
            have hba : (role == r) = false := by
              simp only [beq_eq_false_iff_ne, ne_eq]
              intro hcontr
              rw [hcontr] at hm
              rw [hm2] at hm
              cases hm
            simp [List.lookup, hba, hm]
        rw [hoi]

/-- C6 (amended): each firmware-reported display name is normalized by trimming
leading/trailing whitespace and ASCII case-folding only, then matched exactly
against the fixed table of known names (names differing in case or in outer
whitespace padding map to the same role, but punctuation or internal-whitespace
differences do not match); and the role-to-id table built by the catalog fold
prefers the first id encountered for a role when duplicates exist. -/
theorem role_normalization_amended :
    (∀ (ws1 name ws2 : List Nat), (∀ c ∈ ws1, isWhitespaceCode c) →
        (∀ c ∈ ws2, isWhitespaceCode c) →
        role_from_display_name (ws1 ++ name ++ ws2) = role_from_display_name name) ∧
      (∀ name : List Nat,
        role_from_display_name (name.map toAsciiLowercase) = role_from_display_name name) ∧
      (∀ (entries : List (Nat × List Nat)) (role : BehaviorRole),
        ((ensure_behavior_catalog entries).2).lookup role = firstIdForRole entries role) := by
  refine ⟨?_, ?_, ?_⟩
  · intro ws1 name ws2 h1 h2
    unfold role_from_display_name
    rw [trim_pad ws1 name ws2 h1 h2]
  · intro name
    unfold role_from_display_name
    rw [trim_map_lower, map_lower_idem]
  · intro entries role
    unfold ensure_behavior_catalog
    rw [catalog_fold_lookup entries [] [] role]
    simp [List.lookup]

/-- Witness for C6 (amended) at concrete inputs: whitespace padding and case
changes do not affect the assigned role, and a duplicated role keeps the first
id. -/
theorem role_normalization_amended_witness :
    role_from_display_name (strCodes "  Key Press") = some .KeyPress ∧
      role_from_display_name (strCodes "KEY PRESS") = some .KeyPress ∧
      ((ensure_behavior_catalog
          [(3, strCodes "Key Press"), (9, strCodes "Key Press")]).2).lookup .KeyPress =
        some 3 := by
  obtain ⟨hA, hB, hC⟩ := role_normalization_amended
  refine ⟨?_, ?_, ?_⟩
  · have h := hA (strCodes "  ") (strCodes "Key Press") [] (by decide) (by decide)
    rw [show strCodes "  Key Press" = strCodes "  " ++ strCodes "Key Press" ++ [] by decide]
    rw [h]
    decide
  · have h := hB (strCodes "KEY PRESS")
    rw [← h]
    decide
  · rw [hC]
    decide

/-- `zmk::keymap::BehaviorBinding`: signed behavior id plus two unsigned
parameters. -/
structure BehaviorBinding where
  behavior_id : Int
  param1 : Nat
  param2 : Nat
deriving DecidableEq

/-- `zmk::keymap::Layer`: a layer id and its ordered bindings. -/
structure Layer where
  id : Nat
  bindings : List BehaviorBinding
deriving DecidableEq

/-- `zmk::keymap::Keymap`: the ordered list of layers. -/
structure Keymap where
  layers : List Layer
deriving DecidableEq

/-- The typed behavior value, `Behavior` in `src/binding.rs`.  Keycode operands
(decoded from HID usage values by generated code outside `src/`) are modelled as
opaque numbers. -/
inductive Behavior where
  | KeyPress (key : Nat)
  | KeyToggle (key : Nat)
  | LayerTap (layer_id : Nat) (tap : Nat)
  | ModTap (hold : Nat) (tap : Nat)
  | StickyKey (key : Nat)
  | StickyLayer (layer_id : Nat)
  | MomentaryLayer (layer_id : Nat)
  | ToggleLayer (layer_id : Nat)
  | ToLayer (layer_id : Nat)
  | Bluetooth (command : Nat) (value : Nat)
  | ExternalPower (value : Nat)
  | OutputSelection (value : Nat)
  | Backlight (command : Nat) (value : Nat)
  | Underglow (command : Nat) (value : Nat)
  | MouseKeyPress (value : Nat)
  | MouseMove (value : Nat)
  | MouseScroll (value : Nat)
  | CapsWord
  | KeyRepeat
  | Reset
  | Bootloader
  | SoftOff
  | StudioUnlock
  | GraveEscape
  | Transparent
  | None
  | Raw (binding : BehaviorBinding)
deriving DecidableEq

/-- `binding_at` from `src/client.rs` (lines 899-907): `usize::try_from` fails
exactly on negative positions; then the first layer with the given id is
searched and its binding list indexed. -/
def binding_at (keymap : Keymap) (layer_id : Nat) (key_position : Int) :
    Option BehaviorBinding :=
  if key_position < 0 then none
  else
    match keymap.layers.find? (fun l => l.id == layer_id) with
    | none => none
    | some layer => layer.bindings.get? key_position.toNat

/-- `u32::try_from` on an `i32` value: succeeds exactly on non-negative ids
(every non-negative `i32` fits in a `u32`). -/
def u32_try_from (v : Int) : Option Nat :=
  if 0 ≤ v then some v.toNat else none

/-- The role dispatch of `StudioClient::get_key_at` (client.rs:300-375): decode
role-specific operands, falling back to `Behavior.Raw` whenever a keycode
operand fails to decode.  `fhu` abstracts `Keycode::from_hid_usage`, which
lives in the generated keycode table outside `src/`. -/
def decodeRole (fhu : Nat → Option Nat) (role : BehaviorRole) (binding : BehaviorBinding) :
    Behavior :=
  match role with
  | .KeyPress =>
    match fhu binding.param1 with
    | some key => .KeyPress key
    | none => .Raw binding
  | .KeyToggle =>
    match fhu binding.param1 with
    | some key => .KeyToggle key
    | none => .Raw binding
  | .LayerTap =>
    match fhu binding.param2 with
    | some tap => .LayerTap binding.param1 tap
    | none => .Raw binding
  | .ModTap =>
    match fhu binding.param1, fhu binding.param2 with
    | some hold, some tap => .ModTap hold tap
    | _, _ => .Raw binding
  | .StickyKey =>
    match fhu binding.param1 with
    | some key => .StickyKey key
    | none => .Raw binding
  | .StickyLayer => .StickyLayer binding.param1
  | .MomentaryLayer => .MomentaryLayer binding.param1
  | .ToggleLayer => .ToggleLayer binding.param1
  | .ToLayer => .ToLayer binding.param1
  | .Bluetooth => .Bluetooth binding.param1 binding.param2
  | .ExternalPower => .ExternalPower binding.param1
  | .OutputSelection => .OutputSelection binding.param1
  | .Backlight => .Backlight binding.param1 binding.param2
  | .Underglow => .Underglow binding.param1 binding.param2
  | .MouseKeyPress => .MouseKeyPress binding.param1
  | .MouseMove => .MouseMove binding.param1
  | .MouseScroll => .MouseScroll binding.param1
  | .CapsWord => .CapsWord
  | .KeyRepeat => .KeyRepeat
  | .Reset => .Reset
  | .Bootloader => .Bootloader
  | .SoftOff => .SoftOff
  | .StudioUnlock => .StudioUnlock
  | .GraveEscape => .GraveEscape
  | .Transparent => .Transparent
  | .None => .None

/-- The pure decode part of `StudioClient::get_key_at` (client.rs:278-378),
taking the already-built `behavior_role_by_id` table and the fetched keymap as
inputs. -/
def get_key_at (fhu : Nat → Option Nat) (role_by_id : List (Nat × BehaviorRole))
    (keymap : Keymap) (layer_id : Nat) (key_position : Int) :
    Except ClientError Behavior :=
  match binding_at keymap layer_id key_position with
  | none => .error (.InvalidLayerOrPosition layer_id key_position)
  | some binding =>
    match u32_try_from binding.behavior_id with
    | none => .ok (.Raw binding)
    | some bid =>
      match role_by_id.lookup bid with
      | none => .ok (.Raw binding)
      | some role => .ok (decodeRole fhu role binding)

/-- The conditions under which the source's role dispatch falls back to `Raw`
because a keycode operand fails to decode. -/
def operandDecodeFails (fhu : Nat → Option Nat) (role : BehaviorRole)
    (binding : BehaviorBinding) : Prop :=
  match role with
  | .KeyPress => fhu binding.param1 = none
  | .KeyToggle => fhu binding.param1 = none
  | .LayerTap => fhu binding.param2 = none
  | .ModTap => fhu binding.param1 = none ∨ fhu binding.param2 = none
  | .StickyKey => fhu binding.param1 = none
  | _ => False

/-- C7: whenever `binding_at` finds a binding, `get_key_at` succeeds (it can
only fail on addressing); a binding whose behavior id is negative or absent from
the role table decodes to `Behavior.Raw` carrying the original binding; and an
operand-decode failure for a known role likewise yields `Behavior.Raw`, never an
error. -/
theorem get_key_at_raw_fallback (fhu : Nat → Option Nat)
    (role_by_id : List (Nat × BehaviorRole)) (keymap : Keymap) (layer_id : Nat)
    (pos : Int) (binding : BehaviorBinding)
    (hb : binding_at keymap layer_id pos = some binding) :
    (∃ b, get_key_at fhu role_by_id keymap layer_id pos = .ok b) ∧
      ((u32_try_from binding.behavior_id = none ∨
        ∃ bid, u32_try_from binding.behavior_id = some bid ∧ role_by_id.lookup bid = none) →
        get_key_at fhu role_by_id keymap layer_id pos = .ok (.Raw binding)) ∧
      (∀ bid role, u32_try_from binding.behavior_id = some bid →
        role_by_id.lookup bid = some role → operandDecodeFails fhu role binding →
        get_key_at fhu role_by_id keymap layer_id pos = .ok (.Raw binding)) := by
  refine ⟨?_, ?_, ?_⟩
  · simp only [get_key_at, hb]
    cases hu : u32_try_from binding.behavior_id with
    | none => exact ⟨.Raw binding, rfl⟩
    | some bid =>
      show ∃ b, (match role_by_id.lookup bid with
        | none => Except.ok (Behavior.Raw binding)
        | some role => Except.ok (decodeRole fhu role binding)) = Except.ok b
      cases hl : role_by_id.lookup bid with
      | none => exact ⟨.Raw binding, rfl⟩
      | some role => exact ⟨decodeRole fhu role binding, rfl⟩
  · intro h
    simp only [get_key_at, hb]
    rcases h with h | ⟨bid, hbid, hl⟩
    · simp only [h]
    · simp only [hbid, hl]
  · intro bid role hbid hl hop
    simp only [get_key_at, hb, hbid, hl]
    cases role
    case KeyPress =>
      simp only [operandDecodeFails] at hop
      simp [decodeRole, hop]
    case KeyToggle =>
      simp only [operandDecodeFails] at hop
      simp [decodeRole, hop]
    case LayerTap =>
      simp only [operandDecodeFails] at hop
      simp [decodeRole, hop]
    case ModTap =>
      simp only [operandDecodeFails] at hop
      rcases hop with h | h
      · simp [decodeRole, h]
      · cases hfp : fhu binding.param1 <;> simp [decodeRole, h, hfp]
    case StickyKey =>
      simp only [operandDecodeFails] at hop
      simp [decodeRole, hop]
    all_goals simp only [operandDecodeFails] at hop

/-- Witness for C7 at concrete inputs: a keymap whose single binding has an
unknown behavior id decodes as `Raw`, and a known `KeyPress` id whose keycode
operand fails to decode also yields `Raw`. -/
theorem get_key_at_raw_fallback_witness :
    get_key_at (fun _ => none) [(1, .KeyPress)]
        ⟨[⟨0, [⟨7, 0, 0⟩]⟩]⟩ 0 0 = .ok (.Raw ⟨7, 0, 0⟩) ∧
      get_key_at (fun _ => none) [(1, .KeyPress)]
        ⟨[⟨0, [⟨1, 5, 0⟩]⟩]⟩ 0 0 = .ok (.Raw ⟨1, 5, 0⟩) := by
  constructor
  · exact (get_key_at_raw_fallback (fun _ => none) [(1, .KeyPress)]
      ⟨[⟨0, [⟨7, 0, 0⟩]⟩]⟩ 0 0 ⟨7, 0, 0⟩ (by decide)).2.1
      (Or.inr ⟨7, by decide, by decide⟩)
  · exact (get_key_at_raw_fallback (fun _ => none) [(1, .KeyPress)]
      ⟨[⟨0, [⟨1, 5, 0⟩]⟩]⟩ 0 0 ⟨1, 5, 0⟩ (by decide)).2.2
      1 .KeyPress (by decide) (by decide) rfl

/-- C8: `get_key_at` with a negative key position, a layer id that no layer of
the keymap carries, or a position at or beyond the addressed layer's binding
count, returns the `InvalidLayerOrPosition` error carrying that layer id and
position (the lookup is total, so no out-of-bounds access can occur). -/
theorem get_key_at_invalid_addressing (fhu : Nat → Option Nat)
    (role_by_id : List (Nat × BehaviorRole)) (keymap : Keymap) (layer_id : Nat) (pos : Int)
    (h : pos < 0 ∨ keymap.layers.find? (fun l => l.id == layer_id) = none ∨
      ∃ layer, keymap.layers.find? (fun l => l.id == layer_id) = some layer ∧
        (layer.bindings.length : Int) ≤ pos) :
    get_key_at fhu role_by_id keymap layer_id pos =
      .error (.InvalidLayerOrPosition layer_id pos) := by
  have hb : binding_at keymap layer_id pos = none := by
    unfold binding_at
    rcases h with h | h | ⟨layer, hfind, hlen⟩
    · rw [if_pos h]
    · by_cases hneg : pos < 0
      · rw [if_pos hneg]
      · rw [if_neg hneg, h]
    · by_cases hneg : pos < 0
      · rw [if_pos hneg]
      · rw [if_neg hneg, hfind]
        exact List.get?_eq_none.mpr (by omega)
  simp only [get_key_at, hb]

/-- Witness for C8 at concrete inputs: missing layer id, negative position, and
an overflowing position on an existing layer all report the addressing error. -/
theorem get_key_at_invalid_addressing_witness :
    get_key_at (fun _ => none) [] ⟨[⟨0, [⟨1, 0, 0⟩]⟩]⟩ 5 0 =
        .error (.InvalidLayerOrPosition 5 0) ∧
      get_key_at (fun _ => none) [] ⟨[⟨0, [⟨1, 0, 0⟩]⟩]⟩ 0 (-1) =
        .error (.InvalidLayerOrPosition 0 (-1)) ∧
      get_key_at (fun _ => none) [] ⟨[⟨0, [⟨1, 0, 0⟩]⟩]⟩ 0 1 =
        .error (.InvalidLayerOrPosition 0 1) := by
  refine ⟨?_, ?_, ?_⟩
  · exact get_key_at_invalid_addressing (fun _ => none) [] ⟨[⟨0, [⟨1, 0, 0⟩]⟩]⟩ 5 0
      (Or.inr (Or.inl (by decide)))
  · exact get_key_at_invalid_addressing (fun _ => none) [] ⟨[⟨0, [⟨1, 0, 0⟩]⟩]⟩ 0 (-1)
      (Or.inl (by decide))
  · exact get_key_at_invalid_addressing (fun _ => none) [] ⟨[⟨0, [⟨1, 0, 0⟩]⟩]⟩ 0 1
      (Or.inr (Or.inr ⟨⟨0, [⟨1, 0, 0⟩]⟩, by decide, by decide⟩))
